import Mathlib

/-!
Verification of the DE_Approx repository (src/src/main.rs).

The program approximates a scalar first-order ODE dy/dt = f(t, y) with three
fixed-step explicit integrators (explicit Euler, Heun/improved Euler, and
classical RK4), each written twice: once in module `threaded_funcs` taking the
derivative function through an `Arc`, once in module `serial_funcs` taking it
by reference.  The loops are identical in both copies.

Shallow embedding conventions:
* `f64` values are modelled by `ℚ`.  The claims settled here are structural
  (which recurrence each loop computes, how many iterations and derivative
  evaluations occur, that the two copies agree); these are independent of the
  rounding of individual floating-point operations, and exact arithmetic keeps
  the embedding executable.
* The wall-clock timing component of each function's returned pair
  (`time::precise_time_s()` bracketing) is not modelled; each embedded
  integrator returns the final state `ycurrent`, the first component of the
  Rust pair.
* A Rust `for _ in 0..steps` loop is embedded as structural recursion on
  `steps`, consuming the mutable locals (`ycurrent`, `tcurrent`) as arguments
  in exactly the order the loop body updates them: the body first executes
  `ycurrent += ...` (whose right-hand side reads the old `ycurrent` and the
  old `tcurrent`) and then `tcurrent += h`.
-/

namespace threaded_funcs

/-- Loop of `threaded_funcs::euler_method` (main.rs lines 88-98).
Body: `ycurrent += h*de(tcurrent,ycurrent); tcurrent += h;`. -/
def eulerLoop (de : ℚ → ℚ → ℚ) (h : ℚ) : ℕ → ℚ → ℚ → ℚ
  | 0, ycurrent, _tcurrent => ycurrent
  | Nat.succ k, ycurrent, tcurrent =>
      eulerLoop de h k (ycurrent + h * de tcurrent ycurrent) (tcurrent + h)

/-- `threaded_funcs::euler_method` (main.rs lines 88-98), final state component. -/
def euler_method (y0 t0 : ℚ) (steps : ℕ) (h : ℚ) (de : ℚ → ℚ → ℚ) : ℚ :=
  eulerLoop de h steps y0 t0

/-- Loop of `threaded_funcs::improved_euler` (main.rs lines 101-113).
`half_h = h/2.0` is precomputed before the loop; the body is
`let k1 = de(tcurrent,ycurrent);
 ycurrent += half_h*(k1 + de(tcurrent + h, ycurrent + h*k1));
 tcurrent += h;` — both reads of `ycurrent` on the right-hand side see the
original value of this step. -/
def heunLoop (de : ℚ → ℚ → ℚ) (h half_h : ℚ) : ℕ → ℚ → ℚ → ℚ
  | 0, ycurrent, _tcurrent => ycurrent
  | Nat.succ k, ycurrent, tcurrent =>
      let k1 := de tcurrent ycurrent
      heunLoop de h half_h k
        (ycurrent + half_h * (k1 + de (tcurrent + h) (ycurrent + h * k1)))
        (tcurrent + h)

/-- `threaded_funcs::improved_euler` (main.rs lines 101-113), final state. -/
def improved_euler (y0 t0 : ℚ) (steps : ℕ) (h : ℚ) (de : ℚ → ℚ → ℚ) : ℚ :=
  heunLoop de h (h / 2) steps y0 t0

/-- Loop of `threaded_funcs::runge_kutta` (main.rs lines 115-133).
`half_h = h/2.0` and `sixth_h = h/6.0` are precomputed before the loop. -/
def rkLoop (de : ℚ → ℚ → ℚ) (h half_h sixth_h : ℚ) : ℕ → ℚ → ℚ → ℚ
  | 0, ycurrent, _tcurrent => ycurrent
  | Nat.succ k, ycurrent, tcurrent =>
      let k1 := de tcurrent ycurrent
      let k2 := de (tcurrent + half_h) (ycurrent + half_h * k1)
      let k3 := de (tcurrent + half_h) (ycurrent + half_h * k2)
      let k4 := de (tcurrent + h) (ycurrent + h * k3)
      rkLoop de h half_h sixth_h k
        (ycurrent + sixth_h * (k1 + 2 * k2 + 2 * k3 + k4))
        (tcurrent + h)

/-- `threaded_funcs::runge_kutta` (main.rs lines 115-133), final state. -/
def runge_kutta (y0 t0 : ℚ) (steps : ℕ) (h : ℚ) (de : ℚ → ℚ → ℚ) : ℚ :=
  rkLoop de h (h / 2) (h / 6) steps y0 t0

end threaded_funcs

namespace serial_funcs

/-- Loop of `serial_funcs::euler_method` (main.rs lines 145-156); the body is
textually identical to the threaded copy. -/
def eulerLoop (de : ℚ → ℚ → ℚ) (h : ℚ) : ℕ → ℚ → ℚ → ℚ
  | 0, ycurrent, _tcurrent => ycurrent
  | Nat.succ k, ycurrent, tcurrent =>
      eulerLoop de h k (ycurrent + h * de tcurrent ycurrent) (tcurrent + h)

/-- `serial_funcs::euler_method` (main.rs lines 145-156), final state. -/
def euler_method (y0 t0 : ℚ) (steps : ℕ) (h : ℚ) (de : ℚ → ℚ → ℚ) : ℚ :=
  eulerLoop de h steps y0 t0

/-- Loop of `serial_funcs::improved_euler` (main.rs lines 159-172); body
identical to the threaded copy. -/
def heunLoop (de : ℚ → ℚ → ℚ) (h half_h : ℚ) : ℕ → ℚ → ℚ → ℚ
  | 0, ycurrent, _tcurrent => ycurrent
  | Nat.succ k, ycurrent, tcurrent =>
      let k1 := de tcurrent ycurrent
      heunLoop de h half_h k
        (ycurrent + half_h * (k1 + de (tcurrent + h) (ycurrent + h * k1)))
        (tcurrent + h)

/-- `serial_funcs::improved_euler` (main.rs lines 159-172), final state. -/
def improved_euler (y0 t0 : ℚ) (steps : ℕ) (h : ℚ) (de : ℚ → ℚ → ℚ) : ℚ :=
  heunLoop de h (h / 2) steps y0 t0

/-- Loop of `serial_funcs::runge_kutta` (main.rs lines 174-193); body
identical to the threaded copy. -/
def rkLoop (de : ℚ → ℚ → ℚ) (h half_h sixth_h : ℚ) : ℕ → ℚ → ℚ → ℚ
  | 0, ycurrent, _tcurrent => ycurrent
  | Nat.succ k, ycurrent, tcurrent =>
      let k1 := de tcurrent ycurrent
      let k2 := de (tcurrent + half_h) (ycurrent + half_h * k1)
      let k3 := de (tcurrent + half_h) (ycurrent + half_h * k2)
      let k4 := de (tcurrent + h) (ycurrent + h * k3)
      rkLoop de h half_h sixth_h k
        (ycurrent + sixth_h * (k1 + 2 * k2 + 2 * k3 + k4))
        (tcurrent + h)

/-- `serial_funcs::runge_kutta` (main.rs lines 174-193), final state. -/
def runge_kutta (y0 t0 : ℚ) (steps : ℕ) (h : ℚ) (de : ℚ → ℚ → ℚ) : ℚ :=
  rkLoop de h (h / 2) (h / 6) steps y0 t0

end serial_funcs

/-! ## Specification-side recurrences

These follow the wording of the spec (sections 4.1-4.3): sequences
`t_{i+1} = t_i + h` and `y_{i+1}` given by each method's stepping formula,
with `y_{i+1}` read off the *original* `y_i` throughout. -/

/-- The time sequence of the spec: `t_0 = t0`, `t_{i+1} = t_i + h`. -/
def specT (t0 h : ℚ) : ℕ → ℚ
  | 0 => t0
  | Nat.succ i => specT t0 h i + h

/-- Euler recurrence of spec section 4.1: `y_{i+1} = y_i + h * f(t_i, y_i)`. -/
def specEulerY (de : ℚ → ℚ → ℚ) (h y0 t0 : ℚ) : ℕ → ℚ
  | 0 => y0
  | Nat.succ i =>
      specEulerY de h y0 t0 i + h * de (specT t0 h i) (specEulerY de h y0 t0 i)

/-- Heun recurrence of spec section 4.2:
`k1 = f(t_i, y_i)`, `y_predict = y_i + h*k1`,
`y_{i+1} = y_i + (h/2) * (k1 + f(t_i + h, y_predict))`. -/
def specHeunY (de : ℚ → ℚ → ℚ) (h y0 t0 : ℚ) : ℕ → ℚ
  | 0 => y0
  | Nat.succ i =>
      let yi := specHeunY de h y0 t0 i
      let ti := specT t0 h i
      let k1 := de ti yi
      let ypredict := yi + h * k1
      yi + (h / 2) * (k1 + de (ti + h) ypredict)

/-- RK4 recurrence of spec section 4.3. -/
def specRkY (de : ℚ → ℚ → ℚ) (h y0 t0 : ℚ) : ℕ → ℚ
  | 0 => y0
  | Nat.succ i =>
      let yi := specRkY de h y0 t0 i
      let ti := specT t0 h i
      let k1 := de ti yi
      let k2 := de (ti + h / 2) (yi + (h / 2) * k1)
      let k3 := de (ti + h / 2) (yi + (h / 2) * k2)
      let k4 := de (ti + h) (yi + h * k3)
      yi + (h / 6) * (k1 + 2 * k2 + 2 * k3 + k4)

/-! ## Loop-to-recurrence lemmas -/

lemma eulerLoop_spec (de : ℚ → ℚ → ℚ) (h y0 t0 : ℚ) :
    ∀ (n i : ℕ),
      threaded_funcs.eulerLoop de h n (specEulerY de h y0 t0 i) (specT t0 h i)
        = specEulerY de h y0 t0 (i + n) := by
  intro n
  induction n with
  | zero => intro i; simp [threaded_funcs.eulerLoop]
  | succ k ih =>
      intro i
      have hstep :
          threaded_funcs.eulerLoop de h (k + 1)
              (specEulerY de h y0 t0 i) (specT t0 h i)
            = threaded_funcs.eulerLoop de h k
                (specEulerY de h y0 t0 (i + 1)) (specT t0 h (i + 1)) := by
        simp [threaded_funcs.eulerLoop, specEulerY, specT]
      rw [hstep, ih (i + 1)]
      congr 1
      omega

lemma heunLoop_spec (de : ℚ → ℚ → ℚ) (h y0 t0 : ℚ) :
    ∀ (n i : ℕ),
      threaded_funcs.heunLoop de h (h / 2) n (specHeunY de h y0 t0 i) (specT t0 h i)
        = specHeunY de h y0 t0 (i + n) := by
  intro n
  induction n with
  | zero => intro i; simp [threaded_funcs.heunLoop]
  | succ k ih =>
      intro i
      have hstep :
          threaded_funcs.heunLoop de h (h / 2) (k + 1)
              (specHeunY de h y0 t0 i) (specT t0 h i)
            = threaded_funcs.heunLoop de h (h / 2) k
                (specHeunY de h y0 t0 (i + 1)) (specT t0 h (i + 1)) := by
        simp [threaded_funcs.heunLoop, specHeunY, specT]
      rw [hstep, ih (i + 1)]
      congr 1
      omega

lemma rkLoop_spec (de : ℚ → ℚ → ℚ) (h y0 t0 : ℚ) :
    ∀ (n i : ℕ),
      threaded_funcs.rkLoop de h (h / 2) (h / 6) n (specRkY de h y0 t0 i) (specT t0 h i)
        = specRkY de h y0 t0 (i + n) := by
  intro n
  induction n with
  | zero => intro i; simp [threaded_funcs.rkLoop]
  | succ k ih =>
      intro i
      have hstep :
          threaded_funcs.rkLoop de h (h / 2) (h / 6) (k + 1)
              (specRkY de h y0 t0 i) (specT t0 h i)
            = threaded_funcs.rkLoop de h (h / 2) (h / 6) k
                (specRkY de h y0 t0 (i + 1)) (specT t0 h (i + 1)) := by
        simp [threaded_funcs.rkLoop, specRkY, specT]
      rw [hstep, ih (i + 1)]
      congr 1
      omega

/-! ## The two copies of each loop agree -/

lemma eulerLoop_eq (de : ℚ → ℚ → ℚ) (h : ℚ) :
    ∀ (n : ℕ) (y t : ℚ),
      serial_funcs.eulerLoop de h n y t = threaded_funcs.eulerLoop de h n y t := by
  intro n
  induction n with
  | zero => intro y t; rfl
  | succ k ih =>
      intro y t
      simp only [serial_funcs.eulerLoop, threaded_funcs.eulerLoop]
      exact ih _ _

lemma heunLoop_eq (de : ℚ → ℚ → ℚ) (h half_h : ℚ) :
    ∀ (n : ℕ) (y t : ℚ),
      serial_funcs.heunLoop de h half_h n y t
        = threaded_funcs.heunLoop de h half_h n y t := by
  intro n
  induction n with
  | zero => intro y t; rfl
  | succ k ih =>
      intro y t
      simp only [serial_funcs.heunLoop, threaded_funcs.heunLoop]
      exact ih _ _

lemma rkLoop_eq (de : ℚ → ℚ → ℚ) (h half_h sixth_h : ℚ) :
    ∀ (n : ℕ) (y t : ℚ),
      serial_funcs.rkLoop de h half_h sixth_h n y t
        = threaded_funcs.rkLoop de h half_h sixth_h n y t := by
  intro n
  induction n with
  | zero => intro y t; rfl
  | succ k ih =>
      intro y t
      simp only [serial_funcs.rkLoop, threaded_funcs.rkLoop]
      exact ih _ _

lemma euler_threaded_eq_serial (y0 t0 : ℚ) (n : ℕ) (h : ℚ) (de : ℚ → ℚ → ℚ) :
    threaded_funcs.euler_method y0 t0 n h de = serial_funcs.euler_method y0 t0 n h de := by
  unfold threaded_funcs.euler_method serial_funcs.euler_method
  rw [eulerLoop_eq]

lemma heun_threaded_eq_serial (y0 t0 : ℚ) (n : ℕ) (h : ℚ) (de : ℚ → ℚ → ℚ) :
    threaded_funcs.improved_euler y0 t0 n h de = serial_funcs.improved_euler y0 t0 n h de := by
  unfold threaded_funcs.improved_euler serial_funcs.improved_euler
  rw [heunLoop_eq]

lemma rk_threaded_eq_serial (y0 t0 : ℚ) (n : ℕ) (h : ℚ) (de : ℚ → ℚ → ℚ) :
    threaded_funcs.runge_kutta y0 t0 n h de = serial_funcs.runge_kutta y0 t0 n h de := by
  unfold threaded_funcs.runge_kutta serial_funcs.runge_kutta
  rw [rkLoop_eq]

/-! ## Claim theorems C1-C4 -/

/-- C1: for every initial state `y0`, start time `t0`, step count `n`, step
size `h > 0` and derivative function `f`, the Euler integrator (both the
threaded and the serial copy) returns the state `y_n` of the recurrence
`y_{i+1} = y_i + h * f(t_i, y_i)`, `t_{i+1} = t_i + h` started at `(t0, y0)`. -/
theorem euler_method_matches_spec_recurrence
    (y0 t0 : ℚ) (n : ℕ) (h : ℚ) (hpos : 0 < h) (de : ℚ → ℚ → ℚ) :
    threaded_funcs.euler_method y0 t0 n h de = specEulerY de h y0 t0 n ∧
    serial_funcs.euler_method y0 t0 n h de = specEulerY de h y0 t0 n := by
  have ht : threaded_funcs.euler_method y0 t0 n h de = specEulerY de h y0 t0 n := by
    unfold threaded_funcs.euler_method
    have := eulerLoop_spec de h y0 t0 n 0
    simpa [specEulerY, specT] using this
  exact ⟨ht, by rw [← euler_threaded_eq_serial]; exact ht⟩

/-- Witness for C1 at `y0 = 1`, `t0 = 0`, `n = 2`, `h = 1`, `f t y = y`:
Euler computes `y_1 = 1 + 1*1 = 2`, `y_2 = 2 + 1*2 = 4`. -/
theorem euler_method_matches_spec_recurrence_witness :
    (0:ℚ) < 1 ∧
    (threaded_funcs.euler_method 1 0 2 1 (fun _ y => y) = specEulerY (fun _ y => y) 1 1 0 2 ∧
     serial_funcs.euler_method 1 0 2 1 (fun _ y => y) = specEulerY (fun _ y => y) 1 1 0 2) :=
  ⟨by norm_num, euler_method_matches_spec_recurrence 1 0 2 1 (by norm_num) (fun _ y => y)⟩

/-- C2: the Heun / improved-Euler integrator (both copies) advances by
`k1 = f(t_i, y_i)`, `y_predict = y_i + h*k1`,
`y_{i+1} = y_i + (h/2) * (k1 + f(t_i + h, y_predict))`, `t_{i+1} = t_i + h`;
the recurrence `specHeunY` reads the original `y_i` in both derivative
evaluations, so the equality certifies that the code's second evaluation
uses the original, not an updated, `y_i`. -/
theorem improved_euler_matches_spec_recurrence
    (y0 t0 : ℚ) (n : ℕ) (h : ℚ) (hpos : 0 < h) (de : ℚ → ℚ → ℚ) :
    threaded_funcs.improved_euler y0 t0 n h de = specHeunY de h y0 t0 n ∧
    serial_funcs.improved_euler y0 t0 n h de = specHeunY de h y0 t0 n := by
  have ht : threaded_funcs.improved_euler y0 t0 n h de = specHeunY de h y0 t0 n := by
    unfold threaded_funcs.improved_euler
    have := heunLoop_spec de h y0 t0 n 0
    simpa [specHeunY, specT] using this
  exact ⟨ht, by rw [← heun_threaded_eq_serial]; exact ht⟩

/-- Witness for C2 at `y0 = 1`, `t0 = 0`, `n = 2`, `h = 1`, `f t y = y`. -/
theorem improved_euler_matches_spec_recurrence_witness :
    (0:ℚ) < 1 ∧
    (threaded_funcs.improved_euler 1 0 2 1 (fun _ y => y) = specHeunY (fun _ y => y) 1 1 0 2 ∧
     serial_funcs.improved_euler 1 0 2 1 (fun _ y => y) = specHeunY (fun _ y => y) 1 1 0 2) :=
  ⟨by norm_num, improved_euler_matches_spec_recurrence 1 0 2 1 (by norm_num) (fun _ y => y)⟩

/-- C3: the RK4 integrator (both copies) advances by
`k1 = f(t_i, y_i)`, `k2 = f(t_i + h/2, y_i + (h/2)*k1)`,
`k3 = f(t_i + h/2, y_i + (h/2)*k2)`, `k4 = f(t_i + h, y_i + h*k3)`,
`y_{i+1} = y_i + (h/6)*(k1 + 2*k2 + 2*k3 + k4)`, `t_{i+1} = t_i + h`. -/
theorem runge_kutta_matches_spec_recurrence
    (y0 t0 : ℚ) (n : ℕ) (h : ℚ) (hpos : 0 < h) (de : ℚ → ℚ → ℚ) :
    threaded_funcs.runge_kutta y0 t0 n h de = specRkY de h y0 t0 n ∧
    serial_funcs.runge_kutta y0 t0 n h de = specRkY de h y0 t0 n := by
  have ht : threaded_funcs.runge_kutta y0 t0 n h de = specRkY de h y0 t0 n := by
    unfold threaded_funcs.runge_kutta
    have := rkLoop_spec de h y0 t0 n 0
    simpa [specRkY, specT] using this
  exact ⟨ht, by rw [← rk_threaded_eq_serial]; exact ht⟩

/-- Witness for C3 at `y0 = 1`, `t0 = 0`, `n = 1`, `h = 1`, `f t y = y`. -/
theorem runge_kutta_matches_spec_recurrence_witness :
    (0:ℚ) < 1 ∧
    (threaded_funcs.runge_kutta 1 0 1 1 (fun _ y => y) = specRkY (fun _ y => y) 1 1 0 1 ∧
     serial_funcs.runge_kutta 1 0 1 1 (fun _ y => y) = specRkY (fun _ y => y) 1 1 0 1) :=
  ⟨by norm_num, runge_kutta_matches_spec_recurrence 1 0 1 1 (by norm_num) (fun _ y => y)⟩

/-- C4: for every method and identical inputs, the threaded (`Arc`-taking)
and serial (reference-taking) variants return the same final state. -/
theorem threaded_serial_agree
    (y0 t0 : ℚ) (n : ℕ) (h : ℚ) (de : ℚ → ℚ → ℚ) :
    threaded_funcs.euler_method y0 t0 n h de = serial_funcs.euler_method y0 t0 n h de ∧
    threaded_funcs.improved_euler y0 t0 n h de = serial_funcs.improved_euler y0 t0 n h de ∧
    threaded_funcs.runge_kutta y0 t0 n h de = serial_funcs.runge_kutta y0 t0 n h de :=
  ⟨euler_threaded_eq_serial y0 t0 n h de,
   heun_threaded_eq_serial y0 t0 n h de,
   rk_threaded_eq_serial y0 t0 n h de⟩

/-! ## Instrumented loops: counting derivative evaluations and iterations

The loops below are the same loops as above (both copies have identical
bodies), instrumented with two counters: `evals` is incremented once for each
syntactic call of `de` executed by the loop body (Euler has one call site,
Heun two, RK4 four), and `iters` is incremented once per execution of the
loop body.  This is the call-counting stand-in derivative function of the
spec's testable properties, made explicit. -/

structure CountState where
  ycurrent : ℚ
  tcurrent : ℚ
  evals : ℕ
  iters : ℕ

/-- Euler loop with counters: one `de` call per iteration (main.rs line 93). -/
def eulerLoopCount (de : ℚ → ℚ → ℚ) (h : ℚ) : ℕ → CountState → CountState
  | 0, s => s
  | Nat.succ k, s =>
      eulerLoopCount de h k
        ⟨s.ycurrent + h * de s.tcurrent s.ycurrent, s.tcurrent + h,
         s.evals + 1, s.iters + 1⟩

/-- `euler_method` with counters, started like the source: counters at zero. -/
def euler_method_count (y0 t0 : ℚ) (steps : ℕ) (h : ℚ) (de : ℚ → ℚ → ℚ) : CountState :=
  eulerLoopCount de h steps ⟨y0, t0, 0, 0⟩

/-- Heun loop with counters: two `de` calls per iteration (main.rs lines 107-108). -/
def heunLoopCount (de : ℚ → ℚ → ℚ) (h half_h : ℚ) : ℕ → CountState → CountState
  | 0, s => s
  | Nat.succ k, s =>
      let k1 := de s.tcurrent s.ycurrent
      heunLoopCount de h half_h k
        ⟨s.ycurrent + half_h * (k1 + de (s.tcurrent + h) (s.ycurrent + h * k1)),
         s.tcurrent + h, s.evals + 2, s.iters + 1⟩

/-- `improved_euler` with counters. -/
def improved_euler_count (y0 t0 : ℚ) (steps : ℕ) (h : ℚ) (de : ℚ → ℚ → ℚ) : CountState :=
  heunLoopCount de h (h / 2) steps ⟨y0, t0, 0, 0⟩

/-- RK4 loop with counters: four `de` calls per iteration (main.rs lines 124-127). -/
def rkLoopCount (de : ℚ → ℚ → ℚ) (h half_h sixth_h : ℚ) : ℕ → CountState → CountState
  | 0, s => s
  | Nat.succ k, s =>
      let k1 := de s.tcurrent s.ycurrent
      let k2 := de (s.tcurrent + half_h) (s.ycurrent + half_h * k1)
      let k3 := de (s.tcurrent + half_h) (s.ycurrent + half_h * k2)
      let k4 := de (s.tcurrent + h) (s.ycurrent + h * k3)
      rkLoopCount de h half_h sixth_h k
        ⟨s.ycurrent + sixth_h * (k1 + 2 * k2 + 2 * k3 + k4),
         s.tcurrent + h, s.evals + 4, s.iters + 1⟩

/-- `runge_kutta` with counters. -/
def runge_kutta_count (y0 t0 : ℚ) (steps : ℕ) (h : ℚ) (de : ℚ → ℚ → ℚ) : CountState :=
  rkLoopCount de h (h / 2) (h / 6) steps ⟨y0, t0, 0, 0⟩

lemma eulerLoopCount_counts (de : ℚ → ℚ → ℚ) (h : ℚ) :
    ∀ (n : ℕ) (s : CountState),
      (eulerLoopCount de h n s).evals = s.evals + n ∧
      (eulerLoopCount de h n s).iters = s.iters + n ∧
      (eulerLoopCount de h n s).ycurrent
        = threaded_funcs.eulerLoop de h n s.ycurrent s.tcurrent := by
  intro n
  induction n with
  | zero => intro s; simp [eulerLoopCount, threaded_funcs.eulerLoop]
  | succ k ih =>
      intro s
      have := ih ⟨s.ycurrent + h * de s.tcurrent s.ycurrent, s.tcurrent + h,
                  s.evals + 1, s.iters + 1⟩
      simp only [eulerLoopCount, threaded_funcs.eulerLoop]
      refine ⟨?_, ?_, ?_⟩
      · rw [this.1]; dsimp only; omega
      · rw [this.2.1]; dsimp only; omega
      · exact this.2.2

lemma heunLoopCount_counts (de : ℚ → ℚ → ℚ) (h half_h : ℚ) :
    ∀ (n : ℕ) (s : CountState),
      (heunLoopCount de h half_h n s).evals = s.evals + 2 * n ∧
      (heunLoopCount de h half_h n s).iters = s.iters + n ∧
      (heunLoopCount de h half_h n s).ycurrent
        = threaded_funcs.heunLoop de h half_h n s.ycurrent s.tcurrent := by
  intro n
  induction n with
  | zero => intro s; simp [heunLoopCount, threaded_funcs.heunLoop]
  | succ k ih =>
      intro s
      have := ih ⟨s.ycurrent + half_h * (de s.tcurrent s.ycurrent +
                    de (s.tcurrent + h) (s.ycurrent + h * de s.tcurrent s.ycurrent)),
                  s.tcurrent + h, s.evals + 2, s.iters + 1⟩
      simp only [heunLoopCount, threaded_funcs.heunLoop]
      refine ⟨?_, ?_, ?_⟩
      · rw [this.1]; dsimp only; omega
      · rw [this.2.1]; dsimp only; omega
      · exact this.2.2

lemma rkLoopCount_counts (de : ℚ → ℚ → ℚ) (h half_h sixth_h : ℚ) :
    ∀ (n : ℕ) (s : CountState),
      (rkLoopCount de h half_h sixth_h n s).evals = s.evals + 4 * n ∧
      (rkLoopCount de h half_h sixth_h n s).iters = s.iters + n ∧
      (rkLoopCount de h half_h sixth_h n s).ycurrent
        = threaded_funcs.rkLoop de h half_h sixth_h n s.ycurrent s.tcurrent := by
  intro n
  induction n with
  | zero => intro s; simp [rkLoopCount, threaded_funcs.rkLoop]
  | succ k ih =>
      intro s
      have := ih
        ⟨s.ycurrent + sixth_h * (de s.tcurrent s.ycurrent
            + 2 * de (s.tcurrent + half_h)
                (s.ycurrent + half_h * de s.tcurrent s.ycurrent)
            + 2 * de (s.tcurrent + half_h)
                (s.ycurrent + half_h * de (s.tcurrent + half_h)
                  (s.ycurrent + half_h * de s.tcurrent s.ycurrent))
            + de (s.tcurrent + h)
                (s.ycurrent + h * de (s.tcurrent + half_h)
                  (s.ycurrent + half_h * de (s.tcurrent + half_h)
                    (s.ycurrent + half_h * de s.tcurrent s.ycurrent)))),
         s.tcurrent + h, s.evals + 4, s.iters + 1⟩
      simp only [rkLoopCount, threaded_funcs.rkLoop]
      refine ⟨?_, ?_, ?_⟩
      · rw [this.1]; dsimp only; omega
      · rw [this.2.1]; dsimp only; omega
      · exact this.2.2

/-! ## Claim theorems C5-C7, C10 -/

/-- C5, counterexample: with step count `n = 1`, the Heun integrator performs
2 derivative evaluations, not 1, so "all three methods perform exactly `n`
evaluations" is false as stated (Euler performs `n`, Heun `2n`, RK4 `4n`). -/
theorem heun_two_evals_per_step_not_one :
    (improved_euler_count 0 0 1 1 (fun _ y => y)).evals = 2 ∧ (2 : ℕ) ≠ 1 := by
  constructor
  · rfl
  · omega

/-- C5 (amended): with step count `n`, the Euler integrator performs exactly
`n` derivative evaluations, the Heun integrator exactly `2n`, and the RK4
integrator exactly `4n`; in each case the instrumented state variable agrees
with the uninstrumented integrator. -/
theorem derivative_evaluation_counts
    (y0 t0 : ℚ) (n : ℕ) (h : ℚ) (de : ℚ → ℚ → ℚ) :
    (euler_method_count y0 t0 n h de).evals = n ∧
    (improved_euler_count y0 t0 n h de).evals = 2 * n ∧
    (runge_kutta_count y0 t0 n h de).evals = 4 * n ∧
    (euler_method_count y0 t0 n h de).ycurrent = threaded_funcs.euler_method y0 t0 n h de ∧
    (improved_euler_count y0 t0 n h de).ycurrent = threaded_funcs.improved_euler y0 t0 n h de ∧
    (runge_kutta_count y0 t0 n h de).ycurrent = threaded_funcs.runge_kutta y0 t0 n h de := by
  have he := eulerLoopCount_counts de h n ⟨y0, t0, 0, 0⟩
  have hh := heunLoopCount_counts de h (h / 2) n ⟨y0, t0, 0, 0⟩
  have hr := rkLoopCount_counts de h (h / 2) (h / 6) n ⟨y0, t0, 0, 0⟩
  refine ⟨?_, ?_, ?_, ?_, ?_, ?_⟩
  · simpa [euler_method_count] using he.1
  · simpa [improved_euler_count] using hh.1
  · simpa [runge_kutta_count] using hr.1
  · simpa [euler_method_count, threaded_funcs.euler_method] using he.2.2
  · simpa [improved_euler_count, threaded_funcs.improved_euler] using hh.2.2
  · simpa [runge_kutta_count, threaded_funcs.runge_kutta] using hr.2.2

/-- C6: each integrator executes exactly `n` loop-body iterations — the count
depends only on the step-count argument `n`, for every `h`, `t0`, `y0` and
`de` (so no drift in the accumulated time variable, which the count does not
read, can change it), and the loop terminates (the instrumented state is a
total function of its arguments). -/
theorem loop_iteration_count_is_steps
    (y0 t0 : ℚ) (n : ℕ) (h : ℚ) (de : ℚ → ℚ → ℚ) :
    (euler_method_count y0 t0 n h de).iters = n ∧
    (improved_euler_count y0 t0 n h de).iters = n ∧
    (runge_kutta_count y0 t0 n h de).iters = n := by
  have he := eulerLoopCount_counts de h n ⟨y0, t0, 0, 0⟩
  have hh := heunLoopCount_counts de h (h / 2) n ⟨y0, t0, 0, 0⟩
  have hr := rkLoopCount_counts de h (h / 2) (h / 6) n ⟨y0, t0, 0, 0⟩
  exact ⟨by simpa [euler_method_count] using he.2.1,
         by simpa [improved_euler_count] using hh.2.1,
         by simpa [runge_kutta_count] using hr.2.1⟩

/-- C10: with `steps = 0`, each of the six integrator functions returns the
initial state `y0` unchanged, and the derivative function is never evaluated
(the evaluation counter stays at zero). -/
theorem zero_steps_returns_initial_state
    (y0 t0 h : ℚ) (de : ℚ → ℚ → ℚ) :
    threaded_funcs.euler_method y0 t0 0 h de = y0 ∧
    threaded_funcs.improved_euler y0 t0 0 h de = y0 ∧
    threaded_funcs.runge_kutta y0 t0 0 h de = y0 ∧
    serial_funcs.euler_method y0 t0 0 h de = y0 ∧
    serial_funcs.improved_euler y0 t0 0 h de = y0 ∧
    serial_funcs.runge_kutta y0 t0 0 h de = y0 ∧
    (euler_method_count y0 t0 0 h de).evals = 0 ∧
    (improved_euler_count y0 t0 0 h de).evals = 0 ∧
    (runge_kutta_count y0 t0 0 h de).evals = 0 :=
  ⟨rfl, rfl, rfl, rfl, rfl, rfl, rfl, rfl, rfl⟩

/-! ## The harness: concurrent batch and `main`'s dispatch

`main` (main.rs lines 24-81) computes `steps = ((T_END - T0)/H).round() as
usize`, wraps the derivative closure in an `Arc`, spawns one thread per
method, joins them, and then reruns the three serial variants.  The thread
bodies are pure function calls on moved copies of the inputs, and the joins
merely collect their return values, so the batch of the three threaded
results is embedded as the triple of the three function values. -/

/-- The threaded batch of `main` (main.rs lines 39-68): the values produced by
the three spawned workers on shared inputs, as collected by the joins. -/
def threadedBatch (y0 t0 : ℚ) (steps : ℕ) (h : ℚ) (de : ℚ → ℚ → ℚ) : ℚ × ℚ × ℚ :=
  (threaded_funcs.euler_method y0 t0 steps h de,
   threaded_funcs.improved_euler y0 t0 steps h de,
   threaded_funcs.runge_kutta y0 t0 steps h de)

/-- `main`'s step-count computation (main.rs line 28),
`((T_END - T0)/H).round() as usize`, generalized over the constants.
`Int.toNat` models the saturating `as usize` cast of a negative value
(Rust clamps a negative float to 0).  For `h = 0` the `f64` computation
yields `+inf` and the cast saturates to `usize::MAX`, whereas `ℚ` division
by zero yields 0; the claim settled with this definition only uses a
negative `h`, where the two semantics agree. -/
def mainSteps (t0 t_end h : ℚ) : ℕ :=
  (round ((t_end - t0) / h)).toNat

/-- `main`'s dispatch (main.rs lines 24-68) generalized over the configuration
constants `Y0`, `T0`, `T_END`, `H` and the derivative closure: the step count
is computed and the three workers are dispatched unconditionally — `main`
contains no validation branch and no failure exit, which is why this
embedding's type has no error case. -/
def main_run (y0 t0 t_end h : ℚ) (de : ℚ → ℚ → ℚ) : ℚ × ℚ × ℚ :=
  threadedBatch y0 t0 (mainSteps t0 t_end h) h de

/-- C7: each method is deterministic — the result a method produces as part of
the concurrent batch is identical to the result of a separate (serial)
invocation with the same inputs, and two runs of the batch itself coincide
componentwise.  (In the embedding the integrators are pure functions of
their arguments; no scheduling-dependent state exists.) -/
theorem methods_deterministic_across_batch
    (y0 t0 : ℚ) (n : ℕ) (h : ℚ) (de : ℚ → ℚ → ℚ) :
    (threadedBatch y0 t0 n h de).1 = serial_funcs.euler_method y0 t0 n h de ∧
    (threadedBatch y0 t0 n h de).2.1 = serial_funcs.improved_euler y0 t0 n h de ∧
    (threadedBatch y0 t0 n h de).2.2 = serial_funcs.runge_kutta y0 t0 n h de :=
  ⟨euler_threaded_eq_serial y0 t0 n h de,
   heun_threaded_eq_serial y0 t0 n h de,
   rk_threaded_eq_serial y0 t0 n h de⟩

/-- C8: `main` does not fail fast on an invalid configuration.  With the
invalid step size `h = -1` (and `y0 = 0`, `t0 = 0`, `t_end = 5`), the step
count computation saturates to `0` and the three workers are nevertheless
dispatched, returning `(0, 0, 0)` — no validation or failure path exists in
`main`. -/
theorem main_no_fail_fast_on_invalid_config :
    mainSteps 0 5 (-1) = 0 ∧
    main_run 0 0 5 (-1) (fun _ y => y) = (0, 0, 0) := by
  have hsteps : mainSteps 0 5 (-1) = 0 := by
    have : ((5 : ℚ) - 0) / (-1) = ((-5 : ℤ) : ℚ) := by norm_num
    rw [mainSteps, this, round_intCast]
    rfl
  exact ⟨hsteps, by rw [main_run, hsteps]; rfl⟩

/-! ## Non-finite anomaly model for NaN/Infinity propagation

`AVal` models an `f64` for the propagation claim: `some q` is a finite value,
`none` a non-finite one (NaN or an infinity).  In IEEE-754 arithmetic every
`+`, `*` or `/` with a NaN operand returns NaN, and with an infinite operand
returns an infinity or NaN; so non-finiteness of an operand always forces a
non-finite result, which is the absorption law of the lifted operations
below.  The integrators lifted to `AVal` are total Lean functions — the loop
bodies contain no panic path (no unwrap, indexing or assertion), matching
the source.  The `/` lift is only applied to the literals `2.0` and `6.0`. -/

abbrev AVal : Type := Option ℚ

/-- Lifted addition: non-finite if either operand is. -/
def aAdd : AVal → AVal → AVal
  | some a, some b => some (a + b)
  | _, _ => none

/-- Lifted multiplication: non-finite if either operand is. -/
def aMul : AVal → AVal → AVal
  | some a, some b => some (a * b)
  | _, _ => none

/-- Lifted division: non-finite if either operand is (used at `h/2.0`, `h/6.0`). -/
def aDiv : AVal → AVal → AVal
  | some a, some b => some (a / b)
  | _, _ => none

lemma aAdd_none_left (x : AVal) : aAdd none x = none := by cases x <;> rfl

lemma aAdd_none_right (x : AVal) : aAdd x none = none := by cases x <;> rfl

lemma aMul_none_left (x : AVal) : aMul none x = none := by cases x <;> rfl

lemma aMul_none_right (x : AVal) : aMul x none = none := by cases x <;> rfl

namespace anomaly

/-- The Euler loop of main.rs lines 92-95 lifted to `AVal`. -/
def eulerLoop (de : AVal → AVal → AVal) (h : AVal) : ℕ → AVal → AVal → AVal
  | 0, ycurrent, _tcurrent => ycurrent
  | Nat.succ k, ycurrent, tcurrent =>
      eulerLoop de h k (aAdd ycurrent (aMul h (de tcurrent ycurrent)))
        (aAdd tcurrent h)

/-- `threaded_funcs::euler_method` lifted to `AVal`. -/
def euler_method (y0 t0 : AVal) (steps : ℕ) (h : AVal) (de : AVal → AVal → AVal) : AVal :=
  eulerLoop de h steps y0 t0

/-- The Heun loop of main.rs lines 106-109 lifted to `AVal`. -/
def heunLoop (de : AVal → AVal → AVal) (h half_h : AVal) : ℕ → AVal → AVal → AVal
  | 0, ycurrent, _tcurrent => ycurrent
  | Nat.succ k, ycurrent, tcurrent =>
      let k1 := de tcurrent ycurrent
      heunLoop de h half_h k
        (aAdd ycurrent (aMul half_h
          (aAdd k1 (de (aAdd tcurrent h) (aAdd ycurrent (aMul h k1))))))
        (aAdd tcurrent h)

/-- `threaded_funcs::improved_euler` lifted to `AVal`, with `half_h = h/2.0`
precomputed as in the source. -/
def improved_euler (y0 t0 : AVal) (steps : ℕ) (h : AVal) (de : AVal → AVal → AVal) : AVal :=
  heunLoop de h (aDiv h (some 2)) steps y0 t0

/-- The RK4 loop of main.rs lines 123-130 lifted to `AVal`. -/
def rkLoop (de : AVal → AVal → AVal) (h half_h sixth_h : AVal) : ℕ → AVal → AVal → AVal
  | 0, ycurrent, _tcurrent => ycurrent
  | Nat.succ k, ycurrent, tcurrent =>
      let k1 := de tcurrent ycurrent
      let k2 := de (aAdd tcurrent half_h) (aAdd ycurrent (aMul half_h k1))
      let k3 := de (aAdd tcurrent half_h) (aAdd ycurrent (aMul half_h k2))
      let k4 := de (aAdd tcurrent h) (aAdd ycurrent (aMul h k3))
      rkLoop de h half_h sixth_h k
        (aAdd ycurrent (aMul sixth_h
          (aAdd (aAdd (aAdd k1 (aMul (some 2) k2)) (aMul (some 2) k3)) k4)))
        (aAdd tcurrent h)

/-- `threaded_funcs::runge_kutta` lifted to `AVal`, with `half_h = h/2.0` and
`sixth_h = h/6.0` precomputed as in the source. -/
def runge_kutta (y0 t0 : AVal) (steps : ℕ) (h : AVal) (de : AVal → AVal → AVal) : AVal :=
  rkLoop de h (aDiv h (some 2)) (aDiv h (some 6)) steps y0 t0

end anomaly

/-- Lifted time sequence: `t_0 = t0`, `t_{i+1} = t_i + h`. -/
def specTA (t0 h : AVal) : ℕ → AVal
  | 0 => t0
  | Nat.succ i => aAdd (specTA t0 h i) h

/-- Lifted Euler state sequence. -/
def specEulerA (de : AVal → AVal → AVal) (h y0 t0 : AVal) : ℕ → AVal
  | 0 => y0
  | Nat.succ i =>
      aAdd (specEulerA de h y0 t0 i)
        (aMul h (de (specTA t0 h i) (specEulerA de h y0 t0 i)))

/-- Lifted Heun state sequence (with `half_h` as a parameter). -/
def specHeunA (de : AVal → AVal → AVal) (h half_h y0 t0 : AVal) : ℕ → AVal
  | 0 => y0
  | Nat.succ i =>
      let yi := specHeunA de h half_h y0 t0 i
      let ti := specTA t0 h i
      let k1 := de ti yi
      aAdd yi (aMul half_h (aAdd k1 (de (aAdd ti h) (aAdd yi (aMul h k1)))))

/-- The derivative function produced a non-finite value at one of Heun's two
call sites in the step taken from `(t, y)` (`k1`, or the corrector evaluation
written with `k1` substituted in). -/
def heunStepAnomalous (de : AVal → AVal → AVal) (h : AVal) (t y : AVal) : Prop :=
  de t y = none ∨
  de (aAdd t h) (aAdd y (aMul h (de t y))) = none

/-- Lifted RK4 state sequence (with `half_h`, `sixth_h` as parameters). -/
def specRkA (de : AVal → AVal → AVal) (h half_h sixth_h y0 t0 : AVal) : ℕ → AVal
  | 0 => y0
  | Nat.succ i =>
      let yi := specRkA de h half_h sixth_h y0 t0 i
      let ti := specTA t0 h i
      let k1 := de ti yi
      let k2 := de (aAdd ti half_h) (aAdd yi (aMul half_h k1))
      let k3 := de (aAdd ti half_h) (aAdd yi (aMul half_h k2))
      let k4 := de (aAdd ti h) (aAdd yi (aMul h k3))
      aAdd yi (aMul sixth_h
        (aAdd (aAdd (aAdd k1 (aMul (some 2) k2)) (aMul (some 2) k3)) k4))

/-- The derivative function produced a non-finite value at one of RK4's four
call sites in the step taken from `(t, y)` (`k1` through `k4`, each written
with the earlier `k`s substituted in). -/
def rkStepAnomalous (de : AVal → AVal → AVal) (h half_h : AVal) (t y : AVal) : Prop :=
  de t y = none ∨
  de (aAdd t half_h) (aAdd y (aMul half_h (de t y))) = none ∨
  de (aAdd t half_h) (aAdd y (aMul half_h
    (de (aAdd t half_h) (aAdd y (aMul half_h (de t y)))))) = none ∨
  de (aAdd t h) (aAdd y (aMul h
    (de (aAdd t half_h) (aAdd y (aMul half_h
      (de (aAdd t half_h) (aAdd y (aMul half_h (de t y))))))))) = none

lemma anomaly_eulerLoop_spec (de : AVal → AVal → AVal) (h y0 t0 : AVal) :
    ∀ (n i : ℕ),
      anomaly.eulerLoop de h n (specEulerA de h y0 t0 i) (specTA t0 h i)
        = specEulerA de h y0 t0 (i + n) := by
  intro n
  induction n with
  | zero => intro i; simp [anomaly.eulerLoop]
  | succ k ih =>
      intro i
      have hstep :
          anomaly.eulerLoop de h (k + 1) (specEulerA de h y0 t0 i) (specTA t0 h i)
            = anomaly.eulerLoop de h k
                (specEulerA de h y0 t0 (i + 1)) (specTA t0 h (i + 1)) := by
        simp [anomaly.eulerLoop, specEulerA, specTA]
      rw [hstep, ih (i + 1)]
      congr 1
      omega

lemma anomaly_heunLoop_spec (de : AVal → AVal → AVal) (h half_h y0 t0 : AVal) :
    ∀ (n i : ℕ),
      anomaly.heunLoop de h half_h n
          (specHeunA de h half_h y0 t0 i) (specTA t0 h i)
        = specHeunA de h half_h y0 t0 (i + n) := by
  intro n
  induction n with
  | zero => intro i; simp [anomaly.heunLoop]
  | succ k ih =>
      intro i
      have hstep :
          anomaly.heunLoop de h half_h (k + 1)
              (specHeunA de h half_h y0 t0 i) (specTA t0 h i)
            = anomaly.heunLoop de h half_h k
                (specHeunA de h half_h y0 t0 (i + 1)) (specTA t0 h (i + 1)) := by
        simp [anomaly.heunLoop, specHeunA, specTA]
      rw [hstep, ih (i + 1)]
      congr 1
      omega

lemma anomaly_rkLoop_spec (de : AVal → AVal → AVal) (h half_h sixth_h y0 t0 : AVal) :
    ∀ (n i : ℕ),
      anomaly.rkLoop de h half_h sixth_h n
          (specRkA de h half_h sixth_h y0 t0 i) (specTA t0 h i)
        = specRkA de h half_h sixth_h y0 t0 (i + n) := by
  intro n
  induction n with
  | zero => intro i; simp [anomaly.rkLoop]
  | succ k ih =>
      intro i
      have hstep :
          anomaly.rkLoop de h half_h sixth_h (k + 1)
              (specRkA de h half_h sixth_h y0 t0 i) (specTA t0 h i)
            = anomaly.rkLoop de h half_h sixth_h k
                (specRkA de h half_h sixth_h y0 t0 (i + 1)) (specTA t0 h (i + 1)) := by
        simp [anomaly.rkLoop, specRkA, specTA]
      rw [hstep, ih (i + 1)]
      congr 1
      omega

lemma specEulerA_none_mono (de : AVal → AVal → AVal) (h y0 t0 : AVal) :
    ∀ (k i : ℕ), specEulerA de h y0 t0 i = none →
      specEulerA de h y0 t0 (i + k) = none := by
  intro k
  induction k with
  | zero => intro i hi; simpa using hi
  | succ m ih =>
      intro i hi
      have : i + (m + 1) = (i + m) + 1 := by omega
      rw [this]
      simp [specEulerA, ih i hi, aAdd_none_left]

lemma specHeunA_none_mono (de : AVal → AVal → AVal) (h half_h y0 t0 : AVal) :
    ∀ (k i : ℕ), specHeunA de h half_h y0 t0 i = none →
      specHeunA de h half_h y0 t0 (i + k) = none := by
  intro k
  induction k with
  | zero => intro i hi; simpa using hi
  | succ m ih =>
      intro i hi
      have : i + (m + 1) = (i + m) + 1 := by omega
      rw [this]
      simp [specHeunA, ih i hi, aAdd_none_left]

lemma specRkA_none_mono (de : AVal → AVal → AVal) (h half_h sixth_h y0 t0 : AVal) :
    ∀ (k i : ℕ), specRkA de h half_h sixth_h y0 t0 i = none →
      specRkA de h half_h sixth_h y0 t0 (i + k) = none := by
  intro k
  induction k with
  | zero => intro i hi; simpa using hi
  | succ m ih =>
      intro i hi
      have : i + (m + 1) = (i + m) + 1 := by omega
      rw [this]
      simp [specRkA, ih i hi, aAdd_none_left]

lemma specEulerA_none_of_de_none (de : AVal → AVal → AVal) (h y0 t0 : AVal) (i : ℕ)
    (hde : de (specTA t0 h i) (specEulerA de h y0 t0 i) = none) :
    specEulerA de h y0 t0 (i + 1) = none := by
  simp [specEulerA, hde, aMul_none_right, aAdd_none_right]

lemma specHeunA_none_of_step_anomalous
    (de : AVal → AVal → AVal) (h half_h y0 t0 : AVal) (i : ℕ)
    (hde : heunStepAnomalous de h (specTA t0 h i)
             (specHeunA de h half_h y0 t0 i)) :
    specHeunA de h half_h y0 t0 (i + 1) = none := by
  rcases hde with h1 | h2
  · simp [specHeunA, h1, aAdd_none_left, aAdd_none_right, aMul_none_left, aMul_none_right]
  · simp [specHeunA, h2, aAdd_none_left, aAdd_none_right, aMul_none_left, aMul_none_right]

lemma specRkA_none_of_step_anomalous
    (de : AVal → AVal → AVal) (h half_h sixth_h y0 t0 : AVal) (i : ℕ)
    (hde : rkStepAnomalous de h half_h (specTA t0 h i)
             (specRkA de h half_h sixth_h y0 t0 i)) :
    specRkA de h half_h sixth_h y0 t0 (i + 1) = none := by
  rcases hde with h1 | h2 | h3 | h4
  · simp [specRkA, h1, aAdd_none_left, aAdd_none_right, aMul_none_left, aMul_none_right]
  · simp [specRkA, h2, aAdd_none_left, aAdd_none_right, aMul_none_left, aMul_none_right]
  · simp [specRkA, h3, aAdd_none_left, aAdd_none_right, aMul_none_left, aMul_none_right]
  · simp [specRkA, h4, aAdd_none_left, aAdd_none_right, aMul_none_left, aMul_none_right]

/-- C9: each of the three integrators (lifted to the non-finite-value model
`AVal`, where `none` stands for NaN or an infinity) is a total function, and
a non-finite value produced by the derivative function at any step before the
end propagates through all remaining steps into the returned final state.
The three conjuncts are independent, one per integrator: if Euler's
derivative evaluation at some step `i < n` is non-finite, Euler's final state
is non-finite; if either of Heun's two derivative evaluations at some step
`i < n` is non-finite, Heun's final state is non-finite; and if any of RK4's
four derivative evaluations at some step `i < n` is non-finite, RK4's final
state is non-finite.  No abort path exists: the functions still return. -/
theorem nonfinite_anomaly_propagates
    (de : AVal → AVal → AVal) (h y0 t0 : AVal) (n : ℕ) :
    (∀ i, i < n → de (specTA t0 h i) (specEulerA de h y0 t0 i) = none →
      anomaly.euler_method y0 t0 n h de = none) ∧
    (∀ i, i < n → heunStepAnomalous de h (specTA t0 h i)
        (specHeunA de h (aDiv h (some 2)) y0 t0 i) →
      anomaly.improved_euler y0 t0 n h de = none) ∧
    (∀ i, i < n → rkStepAnomalous de h (aDiv h (some 2)) (specTA t0 h i)
        (specRkA de h (aDiv h (some 2)) (aDiv h (some 6)) y0 t0 i) →
      anomaly.runge_kutta y0 t0 n h de = none) := by
  refine ⟨?_, ?_, ?_⟩
  · intro i hi hE
    have hrun : anomaly.euler_method y0 t0 n h de = specEulerA de h y0 t0 n := by
      unfold anomaly.euler_method
      have := anomaly_eulerLoop_spec de h y0 t0 n 0
      simpa [specEulerA, specTA] using this
    have hstep := specEulerA_none_of_de_none de h y0 t0 i hE
    have hsplit : (i + 1) + (n - (i + 1)) = n := by omega
    have := specEulerA_none_mono de h y0 t0 (n - (i + 1)) (i + 1) hstep
    rw [hsplit] at this
    rw [hrun, this]
  · intro i hi hH
    have hrun : anomaly.improved_euler y0 t0 n h de
        = specHeunA de h (aDiv h (some 2)) y0 t0 n := by
      unfold anomaly.improved_euler
      have := anomaly_heunLoop_spec de h (aDiv h (some 2)) y0 t0 n 0
      simpa [specHeunA, specTA] using this
    have hstep := specHeunA_none_of_step_anomalous de h (aDiv h (some 2)) y0 t0 i hH
    have hsplit : (i + 1) + (n - (i + 1)) = n := by omega
    have := specHeunA_none_mono de h (aDiv h (some 2)) y0 t0 (n - (i + 1)) (i + 1) hstep
    rw [hsplit] at this
    rw [hrun, this]
  · intro i hi hR
    have hrun : anomaly.runge_kutta y0 t0 n h de
        = specRkA de h (aDiv h (some 2)) (aDiv h (some 6)) y0 t0 n := by
      unfold anomaly.runge_kutta
      have := anomaly_rkLoop_spec de h (aDiv h (some 2)) (aDiv h (some 6)) y0 t0 n 0
      simpa [specRkA, specTA] using this
    have hstep := specRkA_none_of_step_anomalous de h
      (aDiv h (some 2)) (aDiv h (some 6)) y0 t0 i hR
    have hsplit : (i + 1) + (n - (i + 1)) = n := by omega
    have := specRkA_none_mono de h (aDiv h (some 2)) (aDiv h (some 6)) y0 t0
      (n - (i + 1)) (i + 1) hstep
    rw [hsplit] at this
    rw [hrun, this]

/-- Witness for C9: a derivative that is non-finite everywhere, one step,
`y0 = t0 = 0`, `h = 1`; each of the three final states is non-finite, each
conjunct applied on its own with its hypotheses discharged concretely. -/
theorem nonfinite_anomaly_propagates_witness :
    anomaly.euler_method (some 0) (some 0) 1 (some 1) (fun _ _ => none) = none ∧
    anomaly.improved_euler (some 0) (some 0) 1 (some 1) (fun _ _ => none) = none ∧
    anomaly.runge_kutta (some 0) (some 0) 1 (some 1) (fun _ _ => none) = none :=
  ⟨(nonfinite_anomaly_propagates (fun _ _ => none) (some 1) (some 0) (some 0) 1).1
      0 (by norm_num) rfl,
   (nonfinite_anomaly_propagates (fun _ _ => none) (some 1) (some 0) (some 0) 1).2.1
      0 (by norm_num) (Or.inl rfl),
   (nonfinite_anomaly_propagates (fun _ _ => none) (some 1) (some 0) (some 0) 1).2.2
      0 (by norm_num) (Or.inl rfl)⟩
